import Mathlib

/-!
# Verification of the Bling ERP extraction engine

Shallow embedding of `projeto_sol_dados_coleta` (Python): the OAuth token
lifecycle (`src/auth/oauth.py`), the rate-limited paginating API client
(`src/api/bling_client.py`), the merge-upsert repository
(`src/db/repository.py`) and the extraction pipeline (`src/etl/pipeline.py`).

Conventions of the embedding:
* times are integers (seconds) or rationals where fractional delays matter;
* SQL tables are Lean lists of row structures; a multi-row PostgreSQL
  `INSERT .. ON CONFLICT DO UPDATE` statement processes its proposed rows
  in order against the table, applying the `SET` clause on a conflict with
  an untouched row and failing with the cardinality violation
  `ON CONFLICT DO UPDATE command cannot affect row a second time` when a
  proposed row conflicts with a row this same command already inserted or
  updated; fallible statements return `Except`;
* HTTP calls are parameters: a response function stands for the network.
-/

namespace Sol

/-! ## OAuth credential store (`src/db/models.py` OAuthToken, singleton id=1) -/

/-- One stored OAuth credential row (`oauth_tokens`, always id = 1). -/
structure OAuthToken where
  access_token : String
  refresh_token : String
  token_type : String
  expires_at : Int
  deriving Repr, DecidableEq

/-- The credential store holds at most one record (`get_oauth_token` reads
the first row; `save_oauth_token` upserts on the fixed id 1). -/
abbrev TokenStore := Option OAuthToken

/-- `repository.get_oauth_token`: read the singleton credential. -/
def get_oauth_token (db : TokenStore) : Option OAuthToken := db

/-- `repository.save_oauth_token`: upsert the singleton row id=1 with the new
pair, `token_type="Bearer"`, `expires_at = now + expires_in`, then commit. -/
def save_oauth_token (db : TokenStore) (now : Int)
    (access_token refresh_token : String) (expires_in : Int) : TokenStore :=
  let _ := db
  some { access_token := access_token
         refresh_token := refresh_token
         token_type := "Bearer"
         expires_at := now + expires_in }

/-! ## Token exchange endpoint (`src/auth/oauth.py`) -/

/-- Body of a successful token-endpoint response. -/
structure TokenData where
  access_token : String
  refresh_token : String
  expires_in : Int
  deriving Repr, DecidableEq

/-- Error outcomes of `refresh_access_token` / `get_valid_access_token`. -/
inductive AuthError where
  /-- No stored credential (`RuntimeError: Nenhum token encontrado`). -/
  | noCredential : AuthError
  /-- 400 + `invalid_grant` on refresh (`RuntimeError: Refresh token expirado`). -/
  | invalidGrant : AuthError
  /-- Any other HTTP error from the token endpoint (re-raised). -/
  | httpError (status : Nat) : AuthError
  deriving Repr, DecidableEq

/-- The token endpoint as seen by `refresh_access_token`: given the current
refresh token, the exchange either yields a new pair or fails. -/
abbrev Exchange := String → Except AuthError TokenData

/-- `oauth.refresh_access_token`: read the stored credential (fail if absent),
POST the refresh grant, and on success persist the new pair via
`save_oauth_token` before returning the new access token.  Returns the
access token together with the resulting credential store. -/
def refresh_access_token (exch : Exchange) (now : Int) (db : TokenStore) :
    Except AuthError (String × TokenStore) := do
  match get_oauth_token db with
  | none => .error .noCredential
  | some token =>
    let data ← exch token.refresh_token
    let db := save_oauth_token db now data.access_token data.refresh_token
      data.expires_in
    .ok (data.access_token, db)

/-- `oauth.get_valid_access_token`: read the stored credential (fail if
absent); if the remaining lifetime `expires_at - now` is below 10 minutes
(600 s), refresh; otherwise return the stored access token unchanged. -/
def get_valid_access_token (exch : Exchange) (now : Int) (db : TokenStore) :
    Except AuthError (String × TokenStore) :=
  match get_oauth_token db with
  | none => .error .noCredential
  | some token =>
    if token.expires_at - now < 10 * 60 then
      refresh_access_token exch now db
    else
      .ok (token.access_token, db)

/-! ## Rate-limited API client (`src/api/bling_client.py`) -/

/-- Typed outcome of one `BlingClient._request` call (tenacity-wrapped). -/
inductive ReqOutcome (α : Type) where
  /-- 2xx: the parsed JSON body. -/
  | ok (body : α)
  /-- `BlingRateLimitError` still raised after the 5th attempt (surfaced to
  the caller once `stop_after_attempt(5)` is exhausted). -/
  | rateLimited
  /-- 401 → `RuntimeError("Token inválido ou expirado")`, raised at once. -/
  | invalidToken
  /-- any other non-2xx → `httpx.HTTPStatusError` from `raise_for_status`. -/
  | upstream (status : Nat)
  deriving Repr, DecidableEq

/-- One HTTP response: status code, and the parsed body (meaningful on 2xx). -/
structure HttpResponse (α : Type) where
  status : Nat
  body : α

/-- tenacity `wait_exponential(multiplier=1, min=2, max=30)`: the wait before
the retry following failed attempt `n` (1-based) is `multiplier * 2^n`
clamped into `[min, max]` (cf. tenacity's documented behaviour). -/
def backoffWait (n : Nat) : Nat := max 2 (min (2 ^ n) 30)

/-- The retry loop that tenacity wraps around `BlingClient._request`:
`resp k` is the server's response to the k-th attempt (1-based);
`remaining` is the number of attempts still allowed (5 at first, per
`stop_after_attempt(5)`); a 429 raises `BlingRateLimitError` which is
retried after `backoffWait` while attempts remain; a 401 raises at once;
a 2xx returns the body; any other status raises `HTTPStatusError`.
Returns (outcome, number of attempts made, waits slept between attempts). -/
def requestGo (resp : Nat → HttpResponse α) :
    Nat → Nat → ReqOutcome α × Nat × List Nat
  | 0, _ => (.rateLimited, 0, [])
  | remaining + 1, attempt =>
    let r := resp attempt
    if r.status = 429 then
      if remaining = 0 then (.rateLimited, 1, [])
      else
        let rest := requestGo resp remaining (attempt + 1)
        (rest.1, rest.2.1 + 1, backoffWait attempt :: rest.2.2)
    else if r.status = 401 then (.invalidToken, 1, [])
    else if 200 ≤ r.status ∧ r.status ≤ 299 then (.ok r.body, 1, [])
    else (.upstream r.status, 1, [])

/-- `BlingClient._request` as observed by the caller: up to 5 attempts
starting at attempt 1. -/
def blingRequest (resp : Nat → HttpResponse α) : ReqOutcome α × Nat × List Nat :=
  requestGo resp 5 1

/-- `BlingClient.listar_todas_nfes`: the paging loop.  The server is
modelled by `pages`, the list of successive `data` arrays returned for
`pagina = 1, 2, ...`; past the end of `pages` the server replies with an
empty `data` (which the loop treats like any short page).  The loop
accumulates each requested page and stops as soon as a page holds fewer
than `page_size` records.  Returns (accumulated records, requests made). -/
def listar_todas_nfes (page_size : Nat) : List (List α) → List α × Nat
  | [] => ([], 1)
  | registros :: rest =>
    if registros.length < page_size then (registros, 1)
    else
      let r := listar_todas_nfes page_size rest
      (registros ++ r.1, r.2 + 1)

/-- `BlingClient.buscar_produto_por_codigo`: `GET /produtos?codigo=...`
through `_request`; body modelled as the response's `data` list.  Returns
`data[0] if data else None`, and `None` on any exception
(`except Exception: return None`). -/
def buscar_produto_por_codigo (resp : Nat → HttpResponse (List α)) : Option α :=
  match (blingRequest resp).1 with
  | .ok data => data.head?
  | _ => none

/-- `BlingClient._wait_rate_limit`: `delay` is the configured
`API_RATE_LIMIT_DELAY` (default 0.35 s), `last` the recorded
`_last_request_time`, `now` the current `time.monotonic()` reading.  If the
elapsed time `now - last` is below the delay, sleep exactly the remaining
difference; then record the post-sleep monotonic reading (idealized as
`now + slept`) as the new `_last_request_time`, which is the instant the
request is released.  Returns (new recorded time, slept duration). -/
def wait_rate_limit (delay last now : ℚ) : ℚ × ℚ :=
  let elapsed := now - last
  if elapsed < delay then (now + (delay - elapsed), delay - elapsed)
  else (now, 0)

/-! ## NF-e line items and payments (`src/db/models.py`, `repository.py`).
Numeric columns (`Float` in the schema) are modelled as rationals. -/

/-- One `nfe_itens` row / one proposed batch entry (`_salvar_nfe` builds the
entries without `nfe_id`; `upsert_nfe_itens` sets it). -/
structure NfeItem where
  nfe_id : Int
  codigo_produto : Option String
  descricao_produto : Option String
  quantidade : ℚ
  valor_unitario : ℚ
  valor_total : ℚ
  valor_desconto : ℚ
  unidade_medida : Option String
  deriving Repr, DecidableEq

/-- The `uq_nfe_item` (`nfe_id`, `codigo_produto`) conflict test between an
existing row and a proposed row: a NULL `codigo_produto` never collides. -/
def itemConflict (row it : NfeItem) : Bool :=
  row.nfe_id == it.nfe_id &&
    match row.codigo_produto, it.codigo_produto with
    | some a, some b => a == b
    | _, _ => false

/-- The `ON CONFLICT constraint=uq_nfe_item DO UPDATE` SET clause of
`upsert_nfe_itens`: description, unit value and unit of measure are taken
from the excluded (new) row; quantity, total value and discount are
accumulated onto the existing row. -/
def itemMerge (row it : NfeItem) : NfeItem :=
  { row with
    descricao_produto := it.descricao_produto
    quantidade := row.quantidade + it.quantidade
    valor_unitario := it.valor_unitario
    valor_total := row.valor_total + it.valor_total
    valor_desconto := row.valor_desconto + it.valor_desconto
    unidade_medida := it.unidade_medida }

/-- PostgreSQL statement-level failures surfaced by the repository layer. -/
inductive PgError where
  /-- Error 21000, `ON CONFLICT DO UPDATE command cannot affect row a
  second time`: two rows proposed within one command conflict with each
  other on the arbiter constraint. -/
  | cardinalityViolation
  deriving Repr, DecidableEq

/-- One proposed row of a multi-row `INSERT .. ON CONFLICT DO UPDATE`
command, processed against the statement's working state.  Each stored row
carries a flag marking whether this same command already inserted or
updated it: a conflict with a flagged row is PostgreSQL's cardinality
violation; a conflict with an untouched row applies the `SET` clause
(`itemMerge`) and flags it; no conflict appends the row, flagged. -/
def pgInsertRow (st : List (NfeItem × Bool)) (it : NfeItem) :
    Except PgError (List (NfeItem × Bool)) :=
  if st.any (fun rb => itemConflict rb.1 it) then
    if st.any (fun rb => itemConflict rb.1 it && rb.2) then
      .error .cardinalityViolation
    else
      .ok (st.map (fun rb =>
        if itemConflict rb.1 it then (itemMerge rb.1 it, true) else rb))
  else .ok (st ++ [(it, true)])

/-- Sequential processing of the proposed rows of one command. -/
def pgInsertRows (st : List (NfeItem × Bool)) :
    List NfeItem → Except PgError (List (NfeItem × Bool))
  | [] => .ok st
  | it :: rest =>
    match pgInsertRow st it with
    | .error e => .error e
    | .ok st' => pgInsertRows st' rest

/-- A whole multi-row `INSERT .. ON CONFLICT DO UPDATE` command: every
existing row starts untouched, the proposed rows are processed in order,
and the statement as a whole either fails or yields the new table. -/
def pgMultiInsert (table : List NfeItem) (rows : List NfeItem) :
    Except PgError (List NfeItem) :=
  match pgInsertRows (table.map (fun r => (r, false))) rows with
  | .error e => .error e
  | .ok st => .ok (st.map Prod.fst)

/-- `repository.upsert_nfe_itens`: delete every row of the invoice
(`DELETE WHERE nfe_id = :id`), set `nfe_id` on each batch entry, then run
one multi-row insert under the `uq_nfe_item` conflict rule (skipped when
the batch is empty, per `if itens:`).  The single statement fails with the
cardinality violation whenever two batch entries share a non-null product
code. -/
def upsert_nfe_itens (table : List NfeItem) (nfe_id : Int)
    (itens : List NfeItem) : Except PgError (List NfeItem) :=
  if itens.isEmpty then .ok (table.filter (fun row => row.nfe_id != nfe_id))
  else pgMultiInsert (table.filter (fun row => row.nfe_id != nfe_id))
    (itens.map (fun it => { it with nfe_id := nfe_id }))

/-- One `nfe_pagamentos` row (surrogate-id table; the id is immaterial to
the stored payment values and is not modelled). -/
structure NfePagamento where
  nfe_id : Int
  tipo_pagamento : Option Int
  valor : ℚ
  deriving Repr, DecidableEq

/-- `repository.upsert_nfe_pagamentos`: delete every row of the invoice,
then plain-insert the batch (no conflict clause). -/
def upsert_nfe_pagamentos (table : List NfePagamento) (nfe_id : Int)
    (pagamentos : List NfePagamento) : List NfePagamento :=
  table.filter (fun row => row.nfe_id != nfe_id) ++
    pagamentos.map (fun p => { p with nfe_id := nfe_id })

/-- Membership test for the (invoice id, product code) line-item slot. -/
def itemHasKey (nfe_id : Int) (c : String) (row : NfeItem) : Bool :=
  row.nfe_id == nfe_id && row.codigo_produto == some c

/-! ## Run bookkeeping and window determination
(`repository.py` EtlControle, `pipeline.py` Pipeline.run step 1).
Dates are modelled as day numbers; `create_etl_run` always sets
`data_referencia`, so it is non-null here. -/

/-- One `etl_controle` row as used by window determination. -/
structure EtlRun where
  status : String
  data_referencia : Nat
  deriving Repr, DecidableEq

/-- `repository.get_last_successful_run`: among the runs with
`status = "success"`, the one with the greatest `data_referencia`
(`ORDER BY data_referencia DESC LIMIT 1`). -/
def get_last_successful_run (runs : List EtlRun) : Option EtlRun :=
  (runs.filter (fun r => r.status == "success")).argmax
    (fun r => r.data_referencia)

/-- Step 1 of `Pipeline.run`: when no start date is given, use the last
successful run's reference date if any, else `now - EXTRACTION_DAYS_BACK`
(default lookback 1 day); the end date defaults to `now`. -/
def determine_window (runs : List EtlRun) (now lookback : Nat)
    (data_inicio data_fim : Option Nat) : Nat × Nat :=
  let di :=
    match data_inicio with
    | some d => d
    | none =>
      match get_last_successful_run runs with
      | some r => r.data_referencia
      | none => now - lookback
  (di, data_fim.getD now)

/-- `Settings.EXTRACTION_DAYS_BACK` default. -/
def EXTRACTION_DAYS_BACK_default : Nat := 1

/-! ## Calendar-month splitting (`pipeline._gerar_periodos_mensais`). -/

/-- A Gregorian calendar date, as produced by `date.fromisoformat`. -/
structure Date where
  year : Nat
  month : Nat
  day : Nat
  deriving Repr, DecidableEq

/-- Order key realizing Python's lexicographic `date` comparison on valid
dates: `month * 32 + day ≤ 12 * 32 + 31 < 512` and `day ≤ 31 < 32`. -/
def Date.toN (d : Date) : Nat := d.year * 512 + d.month * 32 + d.day

/-- Gregorian leap-year rule (Python `calendar`/`datetime`). -/
def isLeap (y : Nat) : Bool :=
  (y % 4 == 0 && y % 100 != 0) || y % 400 == 0

/-- Length of month `m` of year `y`. -/
def daysInMonth (y m : Nat) : Nat :=
  if m = 2 then (if isLeap y then 29 else 28)
  else if m = 4 ∨ m = 6 ∨ m = 9 ∨ m = 11 then 30
  else 31

/-- Structural validity: exactly the dates `date()` can construct. -/
def Date.Valid (d : Date) : Prop :=
  1 ≤ d.month ∧ d.month ≤ 12 ∧ 1 ≤ d.day ∧ d.day ≤ daysInMonth d.year d.month

instance (d : Date) : Decidable d.Valid := by
  unfold Date.Valid
  infer_instance

/-- `date(y, m+1, 1) - timedelta(days=1)` (with December rolling into the
next year): the last day of `d`'s month. -/
def endOfMonth (d : Date) : Date :=
  ⟨d.year, d.month, daysInMonth d.year d.month⟩

/-- `+ timedelta(days=1)`. -/
def nextDay (d : Date) : Date :=
  if d.day < daysInMonth d.year d.month then ⟨d.year, d.month, d.day + 1⟩
  else if d.month < 12 then ⟨d.year, d.month + 1, 1⟩
  else ⟨d.year + 1, 1, 1⟩

/-- The `while cursor <= fim` loop of `_gerar_periodos_mensais`: take the
current month's remainder (clipped at `fim`) as one sub-period and restart
from the following day.  `fuel` bounds the iterations; the caller passes a
bound the theorems prove sufficient, since each iteration advances the
cursor by at least one day. -/
def gerarLoop (fim : Date) : Nat → Date → List (Date × Date)
  | 0, _ => []
  | fuel + 1, cursor =>
    if cursor.toN ≤ fim.toN then
      let fimMes := endOfMonth cursor
      let periodoFim := if fimMes.toN ≤ fim.toN then fimMes else fim
      (cursor, periodoFim) :: gerarLoop fim fuel (nextDay periodoFim)
    else []

/-- `pipeline._gerar_periodos_mensais`. -/
def gerar_periodos_mensais (inicio fim : Date) : List (Date × Date) :=
  gerarLoop fim (fim.toN + 1 - inicio.toN) inicio

end Sol

/-! ## Theorems -/

/-- **C1.** Every successful `refresh_access_token` call persists exactly the
access/refresh pair obtained from the exchange response to the credential
store before returning: on a successful return the stored credential is the
pair from the exchange, and the returned token is its access token. -/
theorem C1_refresh_persists_exchanged_pair
    (exch : Sol.Exchange) (now : Int) (db : Sol.TokenStore)
    (tok : String) (db' : Sol.TokenStore)
    (h : Sol.refresh_access_token exch now db = .ok (tok, db')) :
    ∃ old data, db = some old ∧ exch old.refresh_token = .ok data ∧
      db' = some { access_token := data.access_token
                   refresh_token := data.refresh_token
                   token_type := "Bearer"
                   expires_at := now + data.expires_in } ∧
      tok = data.access_token := by
  match hdb : db with
  | none => simp [Sol.refresh_access_token, Sol.get_oauth_token, hdb] at h
  | some old =>
    refine ⟨old, ?_⟩
    match hx : exch old.refresh_token with
    | .error e =>
      simp [Sol.refresh_access_token, Sol.get_oauth_token, hx,
        Except.bind, bind] at h
    | .ok data =>
      simp only [Sol.refresh_access_token, Sol.get_oauth_token, hx,
        Sol.save_oauth_token, Except.bind, bind, pure, Except.pure,
        Except.ok.injEq, Prod.mk.injEq] at h
      exact ⟨data, rfl, rfl, by simp [← h.2], h.1.symm⟩

/-- Witness for C1 at a concrete store and exchange function. -/
theorem C1_refresh_persists_exchanged_pair_witness :
    ∃ old data,
      (some ⟨"oldA", "oldR", "Bearer", 100⟩ : Sol.TokenStore) = some old ∧
      ((fun _ => Except.ok ⟨"newA", "newR", 21600⟩ : Sol.Exchange))
          old.refresh_token = .ok data ∧
      (some ⟨"newA", "newR", "Bearer", 21600⟩ : Sol.TokenStore) =
        some { access_token := data.access_token
               refresh_token := data.refresh_token
               token_type := "Bearer"
               expires_at := 0 + data.expires_in } ∧
      "newA" = data.access_token :=
  C1_refresh_persists_exchanged_pair
    (fun _ => Except.ok ⟨"newA", "newR", 21600⟩) 0
    (some ⟨"oldA", "oldR", "Bearer", 100⟩) "newA"
    (some ⟨"newA", "newR", "Bearer", 21600⟩) rfl

/-- **C5.** `get_valid_access_token` invokes the refresh operation if and only
if the stored credential's remaining lifetime `expires_at - now` is strictly
below 10 minutes (600 s): below the threshold it returns exactly the result
of `refresh_access_token`, and at or above the threshold it returns the
stored access token with the store unchanged — independent of the exchange
endpoint, i.e. no refresh call is made. -/
theorem C5_refresh_iff_lifetime_below_10min
    (now : Int) (token : Sol.OAuthToken) :
    (token.expires_at - now < 600 →
      ∀ exch : Sol.Exchange,
        Sol.get_valid_access_token exch now (some token) =
          Sol.refresh_access_token exch now (some token)) ∧
    (600 ≤ token.expires_at - now →
      ∀ exch : Sol.Exchange,
        Sol.get_valid_access_token exch now (some token) =
          .ok (token.access_token, some token)) := by
  constructor
  · intro h exch
    simp [Sol.get_valid_access_token, Sol.get_oauth_token, h]
  · intro h exch
    simp only [Sol.get_valid_access_token, Sol.get_oauth_token]
    rw [if_neg (by omega)]

/-- Witness for C5: a credential 100 s from expiry is refreshed; one 10000 s
from expiry is returned as stored, untouched. -/
theorem C5_refresh_iff_lifetime_below_10min_witness :
    (Sol.get_valid_access_token (fun _ => .ok ⟨"nA", "nR", 21600⟩) 0
        (some ⟨"a", "r", "Bearer", 100⟩) =
      Sol.refresh_access_token (fun _ => .ok ⟨"nA", "nR", 21600⟩) 0
        (some ⟨"a", "r", "Bearer", 100⟩)) ∧
    (Sol.get_valid_access_token (fun _ => .ok ⟨"nA", "nR", 21600⟩) 0
        (some ⟨"a", "r", "Bearer", 10000⟩) =
      .ok ("a", some ⟨"a", "r", "Bearer", 10000⟩)) :=
  ⟨(C5_refresh_iff_lifetime_below_10min 0 ⟨"a", "r", "Bearer", 100⟩).1
      (by decide) _,
    (C5_refresh_iff_lifetime_below_10min 0 ⟨"a", "r", "Bearer", 10000⟩).2
      (by decide) _⟩

set_option maxRecDepth 10000 in
/-- **C4.** `listar_todas_nfes` requests pages in increasing order from
page 1, accumulates every requested page's records, and stops exactly after
the first page with strictly fewer than `page_size` records: if the server's
pages are `full ++ short :: rest` with every page of `full` at least
`page_size` long and `short` shorter, the result is the concatenation of
`full` and `short` using `full.length + 1` requests (pages in `rest` are
never requested).  With page size 100 and pages of sizes [100, 100, 37] it
returns 237 records in exactly 3 requests. -/
theorem C4_listar_todas_nfes_pagination
    {α : Type} (page_size : Nat) (full : List (List α)) (short : List α)
    (rest : List (List α))
    (hfull : ∀ p ∈ full, ¬ p.length < page_size)
    (hshort : short.length < page_size) :
    (Sol.listar_todas_nfes page_size (full ++ short :: rest) =
      (full.flatten ++ short, full.length + 1)) ∧
    ((Sol.listar_todas_nfes 100 [List.replicate 100 (0 : Nat),
        List.replicate 100 0, List.replicate 37 0]).1.length = 237 ∧
      (Sol.listar_todas_nfes 100 [List.replicate 100 (0 : Nat),
        List.replicate 100 0, List.replicate 37 0]).2 = 3) := by
  refine ⟨?_, by decide, by decide⟩
  induction full with
  | nil => simp [Sol.listar_todas_nfes, hshort]
  | cons p ps ih =>
    have hp : ¬ p.length < page_size := hfull p (by simp)
    have hps := ih (fun q hq => hfull q (by simp [hq]))
    simp [Sol.listar_todas_nfes, hp, hps, List.append_assoc]

set_option maxRecDepth 10000 in
/-- Witness for C4 at the spec's example: pages of sizes [100, 100, 37]
with page size 100. -/
theorem C4_listar_todas_nfes_pagination_witness :
    (Sol.listar_todas_nfes 100
        ([List.replicate 100 (0 : Nat), List.replicate 100 0] ++
          List.replicate 37 0 :: []) =
      ([List.replicate 100 (0 : Nat), List.replicate 100 0].flatten ++
        List.replicate 37 0,
        [List.replicate 100 (0 : Nat), List.replicate 100 0].length + 1)) ∧
    ((Sol.listar_todas_nfes 100 [List.replicate 100 (0 : Nat),
        List.replicate 100 0, List.replicate 37 0]).1.length = 237 ∧
      (Sol.listar_todas_nfes 100 [List.replicate 100 (0 : Nat),
        List.replicate 100 0, List.replicate 37 0]).2 = 3) :=
  C4_listar_todas_nfes_pagination 100
    [List.replicate 100 0, List.replicate 100 0] (List.replicate 37 0) []
    (by decide) (by decide)

/-- tenacity's `wait_exponential(multiplier=1, min=2, max=30)` always waits
at least 2 s and at most 30 s. -/
theorem backoffWait_bounds (n : Nat) :
    2 ≤ Sol.backoffWait n ∧ Sol.backoffWait n ≤ 30 := by
  unfold Sol.backoffWait
  exact ⟨le_max_left _ _, max_le (by norm_num) (min_le_right _ _)⟩

/-- Every wait slept by the retry loop is one of the exponential-backoff
waits. -/
theorem requestGo_waits_are_backoffs {α : Type} (resp : Nat → Sol.HttpResponse α) :
    ∀ remaining attempt, ∀ w ∈ (Sol.requestGo resp remaining attempt).2.2,
      ∃ n, w = Sol.backoffWait n := by
  intro remaining
  induction remaining with
  | zero => intro attempt w hw; simp [Sol.requestGo] at hw
  | succ n ih =>
    intro attempt w hw
    by_cases h429 : (resp attempt).status = 429
    · by_cases hn : n = 0
      · simp [Sol.requestGo, h429, hn] at hw
      · simp only [Sol.requestGo, if_pos h429, if_neg hn] at hw
        rcases List.mem_cons.mp hw with rfl | hw'
        · exact ⟨attempt, rfl⟩
        · exact ih (attempt + 1) w hw'
    · revert hw
      simp only [Sol.requestGo, if_neg h429]
      split
      · simp
      · split <;> simp

/-- The retry loop with attempts remaining makes at least one attempt. -/
theorem requestGo_attempts_pos {α : Type} (resp : Nat → Sol.HttpResponse α)
    (n attempt : Nat) : 1 ≤ (Sol.requestGo resp (n + 1) attempt).2.1 := by
  simp only [Sol.requestGo]
  split
  · split
    · simp
    · simp
  · split
    · simp
    · split <;> simp

/-- **C6.** `_request` error handling: (i) when every attempt is answered
429, the call is retried to a total of exactly 5 attempts with the
exponential backoff waits [2, 4, 8, 16] and the rate-limit error is
surfaced to the caller; (ii) every backoff wait is at least 2 s and at most
30 s; (iii) a 401 fails immediately with the invalid-token error after a
single attempt — never retried; (iv) any other non-2xx status is surfaced
as an upstream error carrying the status, after a single attempt — no
retry; (v) a 429 on the first attempt does trigger a retry (at least two
attempts are made). -/
theorem C6_request_retry_semantics {α : Type} (resp : Nat → Sol.HttpResponse α) :
    ((∀ k, 1 ≤ k → k ≤ 5 → (resp k).status = 429) →
      Sol.blingRequest resp = (.rateLimited, 5, [2, 4, 8, 16])) ∧
    (∀ w ∈ (Sol.blingRequest resp).2.2, 2 ≤ w ∧ w ≤ 30) ∧
    ((resp 1).status = 401 →
      Sol.blingRequest resp = (.invalidToken, 1, [])) ∧
    ((resp 1).status ≠ 429 → (resp 1).status ≠ 401 →
      ¬ (200 ≤ (resp 1).status ∧ (resp 1).status ≤ 299) →
      Sol.blingRequest resp = (.upstream (resp 1).status, 1, [])) ∧
    ((resp 1).status = 429 → 2 ≤ (Sol.blingRequest resp).2.1) := by
  refine ⟨?_, ?_, ?_, ?_, ?_⟩
  · intro h
    have h1 := h 1 (by norm_num) (by norm_num)
    have h2 := h 2 (by norm_num) (by norm_num)
    have h3 := h 3 (by norm_num) (by norm_num)
    have h4 := h 4 (by norm_num) (by norm_num)
    have h5 := h 5 (by norm_num) (by norm_num)
    simp [Sol.blingRequest, Sol.requestGo, h1, h2, h3, h4, h5, Sol.backoffWait]
  · intro w hw
    obtain ⟨n, rfl⟩ := requestGo_waits_are_backoffs resp 5 1 w hw
    exact backoffWait_bounds _
  · intro h401
    simp [Sol.blingRequest, Sol.requestGo, h401]
  · intro hne hne' hbad
    simp [Sol.blingRequest, Sol.requestGo, hne, hne', hbad]
  · intro h429
    have h := requestGo_attempts_pos resp 3 2
    norm_num at h
    have step : Sol.blingRequest resp
        = ((Sol.requestGo resp 4 2).1, (Sol.requestGo resp 4 2).2.1 + 1,
            Sol.backoffWait 1 :: (Sol.requestGo resp 4 2).2.2) := by
      simp [Sol.blingRequest, Sol.requestGo, h429]
    rw [step]
    show 2 ≤ (Sol.requestGo resp 4 2).2.1 + 1
    omega

/-- Witness for C6: a server that always answers 429 exhausts the 5
attempts; a 401 and a 500 each fail on the first attempt. -/
theorem C6_request_retry_semantics_witness :
    Sol.blingRequest (fun _ => (⟨429, ()⟩ : Sol.HttpResponse Unit)) =
      (.rateLimited, 5, [2, 4, 8, 16]) ∧
    Sol.blingRequest (fun _ => (⟨401, ()⟩ : Sol.HttpResponse Unit)) =
      (.invalidToken, 1, []) ∧
    Sol.blingRequest (fun _ => (⟨500, ()⟩ : Sol.HttpResponse Unit)) =
      (.upstream 500, 1, []) :=
  ⟨(C6_request_retry_semantics _).1 (fun _ _ _ => rfl),
    (C6_request_retry_semantics _).2.2.1 rfl,
    (C6_request_retry_semantics
        (fun _ => (⟨500, ()⟩ : Sol.HttpResponse Unit))).2.2.2.1
      (by decide) (by decide) (by decide)⟩

/-- **C10.** `buscar_produto_por_codigo` never raises (it is a total
function into `Option`): it returns the first element of the response's
`data` list when that list is non-empty; it returns `none` when the list is
empty and also when the request ends in any exception — rate-limit
exhaustion after the 5 retries, the invalid-token error, or any upstream
HTTP error.  In particular the outcome for a server that always throttles
(429), one that answers 500, and one that answers 200 with an empty `data`
list is the same `none`: callers cannot distinguish a transport failure
from a genuinely missing product. -/
theorem C10_buscar_produto_nunca_levanta {α : Type}
    (resp : Nat → Sol.HttpResponse (List α)) :
    (∀ a l, (Sol.blingRequest resp).1 = .ok (a :: l) →
      Sol.buscar_produto_por_codigo resp = some a) ∧
    ((Sol.blingRequest resp).1 = .ok ([] : List α) →
      Sol.buscar_produto_por_codigo resp = none) ∧
    (((Sol.blingRequest resp).1 = .rateLimited ∨
      (Sol.blingRequest resp).1 = .invalidToken ∨
      (∃ s, (Sol.blingRequest resp).1 = .upstream s)) →
      Sol.buscar_produto_por_codigo resp = none) ∧
    (Sol.buscar_produto_por_codigo (fun _ => (⟨429, []⟩ : Sol.HttpResponse (List α))) = none ∧
     Sol.buscar_produto_por_codigo (fun _ => (⟨500, []⟩ : Sol.HttpResponse (List α))) = none ∧
     Sol.buscar_produto_por_codigo (fun _ => (⟨200, []⟩ : Sol.HttpResponse (List α))) = none) := by
  refine ⟨?_, ?_, ?_, rfl, rfl, rfl⟩
  · intro a l h
    simp [Sol.buscar_produto_por_codigo, h]
  · intro h
    simp [Sol.buscar_produto_por_codigo, h]
  · rintro (h | h | ⟨s, h⟩) <;> simp [Sol.buscar_produto_por_codigo, h]

/-- Witness for C10: a 200 response with `data = [7]` yields `some 7`. -/
theorem C10_buscar_produto_nunca_levanta_witness :
    Sol.buscar_produto_por_codigo
      (fun _ => (⟨200, [7]⟩ : Sol.HttpResponse (List Nat))) = some 7 :=
  (C10_buscar_produto_nunca_levanta
    (fun _ => (⟨200, [7]⟩ : Sol.HttpResponse (List Nat)))).1 7 [] rfl

/-- **C9.** The rate-limit gate guarantees that two consecutive requests on
the same client start at least `delay` apart on the monotonic clock: with
`last` the recorded start of the earlier request and `now ≥ last` the
current reading, the later request is released at a time ≥ `last + delay`
— and whenever the elapsed time is below the delay, the gate sleeps for
exactly the remaining difference `delay - (now - last)` (releasing at
exactly `last + delay`), while otherwise it does not sleep at all.  With
the default delay 0.35 s = 7/20, a call 0.1 s after the previous one
sleeps exactly 0.25 s. -/
theorem C9_wait_rate_limit_min_interval (delay last now : ℚ)
    (_hd : 0 ≤ delay) (_hmono : last ≤ now) :
    (last + delay ≤ (Sol.wait_rate_limit delay last now).1) ∧
    (now - last < delay →
      Sol.wait_rate_limit delay last now =
        (last + delay, delay - (now - last))) ∧
    (delay ≤ now - last → Sol.wait_rate_limit delay last now = (now, 0)) ∧
    (Sol.wait_rate_limit (7/20) 0 (1/10) = (7/20, 1/4)) := by
  refine ⟨?_, ?_, ?_, by norm_num [Sol.wait_rate_limit]⟩
  · unfold Sol.wait_rate_limit
    dsimp only
    split
    next h => show last + delay ≤ now + (delay - (now - last)); linarith
    next h => show last + delay ≤ now; linarith [not_lt.mp h]
  · intro h
    unfold Sol.wait_rate_limit
    dsimp only
    rw [if_pos h]
    have e : now + (delay - (now - last)) = last + delay := by ring
    rw [e]
  · intro h
    unfold Sol.wait_rate_limit
    rw [if_neg (not_lt.mpr h)]

/-- Witness for C9 at the default delay 7/20 s, previous start 0 and a call
arriving 1/10 s later. -/
theorem C9_wait_rate_limit_min_interval_witness :
    ((0 : ℚ) + 7/20 ≤ (Sol.wait_rate_limit (7/20) 0 (1/10)).1) ∧
    ((1/10 : ℚ) - 0 < 7/20 →
      Sol.wait_rate_limit (7/20) 0 (1/10) =
        (0 + 7/20, 7/20 - (1/10 - 0))) ∧
    ((7/20 : ℚ) ≤ 1/10 - 0 → Sol.wait_rate_limit (7/20) 0 (1/10) = (1/10, 0)) ∧
    (Sol.wait_rate_limit (7/20) 0 (1/10) = (7/20, 1/4)) :=
  C9_wait_rate_limit_min_interval (7/20) 0 (1/10) (by norm_num) (by norm_num)

/-- The merge rule never changes the (invoice, product code) key. -/
theorem itemHasKey_merge (nid : Int) (c : String) (row it : Sol.NfeItem) :
    Sol.itemHasKey nid c (Sol.itemMerge row it) = Sol.itemHasKey nid c row := rfl

/-- When the incoming row carries the key (`nid`, `c`), conflicting with it
is the same as carrying that key. -/
theorem itemConflict_eq_key {nid : Int} {c : String} {it : Sol.NfeItem}
    (hk : Sol.itemHasKey nid c it = true) (row : Sol.NfeItem) :
    Sol.itemConflict row it = Sol.itemHasKey nid c row := by
  unfold Sol.itemHasKey at hk
  rw [Bool.and_eq_true] at hk
  have e1 : it.nfe_id = nid := eq_of_beq hk.1
  have e2 : it.codigo_produto = some c := eq_of_beq hk.2
  unfold Sol.itemConflict Sol.itemHasKey
  rw [e1, e2]
  cases row.codigo_produto <;> simp

/-- Filtering the `nfe_id`-stamped batch for the key keeps exactly the
entries whose product code is `c`. -/
theorem mapped_filter_key (nid : Int) (c : String)
    (itens : List Sol.NfeItem) :
    ((itens.map (fun it => { it with nfe_id := nid })).filter
      (Sol.itemHasKey nid c)) =
      (itens.filter (fun it => it.codigo_produto == some c)).map
        (fun it => { it with nfe_id := nid }) := by
  induction itens with
  | nil => rfl
  | cons a l ih =>
    have hk : Sol.itemHasKey nid c { a with nfe_id := nid } =
        (a.codigo_produto == some c) := by
      unfold Sol.itemHasKey
      simp
    by_cases hc : (a.codigo_produto == some c) = true
    · simp [List.filter_cons, hk, hc, ih]
    · simp [List.filter_cons, hk, hc, ih]

/-- Rows of different invoices never conflict on `uq_nfe_item`. -/
theorem itemConflict_of_ne_nfe {a b : Sol.NfeItem} (h : a.nfe_id ≠ b.nfe_id) :
    Sol.itemConflict a b = false := by
  unfold Sol.itemConflict
  rw [beq_eq_false_iff_ne.mpr h]
  rfl

/-- A successful row-insert keeps any key-(`nid`, `c`) row that the command
already affected: merging preserves the key and the flag, appending keeps
the old rows. -/
theorem pgInsertRow_preserves_witness (nid : Int) (c : String)
    {st : List (Sol.NfeItem × Bool)} {x : Sol.NfeItem}
    (hw : ∃ rb ∈ st, Sol.itemHasKey nid c rb.1 = true ∧ rb.2 = true)
    {st' : List (Sol.NfeItem × Bool)}
    (hok : Sol.pgInsertRow st x = .ok st') :
    ∃ rb ∈ st', Sol.itemHasKey nid c rb.1 = true ∧ rb.2 = true := by
  obtain ⟨rb, hmem, hkey, haff⟩ := hw
  unfold Sol.pgInsertRow at hok
  split at hok
  · split at hok
    · exact absurd hok (fun h => Except.noConfusion h)
    · rw [Except.ok.injEq] at hok
      subst hok
      by_cases hc : Sol.itemConflict rb.1 x = true
      · refine ⟨(Sol.itemMerge rb.1 x, true), ?_, ?_, rfl⟩
        · refine List.mem_map.mpr ⟨rb, hmem, ?_⟩
          show (if Sol.itemConflict rb.1 x = true
              then (Sol.itemMerge rb.1 x, true) else rb) =
            (Sol.itemMerge rb.1 x, true)
          rw [if_pos hc]
        · rw [itemHasKey_merge]
          exact hkey
      · refine ⟨rb, ?_, hkey, haff⟩
        refine List.mem_map.mpr ⟨rb, hmem, ?_⟩
        show (if Sol.itemConflict rb.1 x = true
            then (Sol.itemMerge rb.1 x, true) else rb) = rb
        rw [if_neg hc]
  · rw [Except.ok.injEq] at hok
    subst hok
    exact ⟨rb, List.mem_append_left _ hmem, hkey, haff⟩

/-- A successful insert of a row without the key (`nid`, `c`) introduces no
key-(`nid`, `c`) row. -/
theorem pgInsertRow_preserves_no_key (nid : Int) (c : String)
    {st : List (Sol.NfeItem × Bool)} {x : Sol.NfeItem}
    (hst : ∀ rb ∈ st, Sol.itemHasKey nid c rb.1 = false)
    (hk : Sol.itemHasKey nid c x = false)
    {st' : List (Sol.NfeItem × Bool)}
    (hok : Sol.pgInsertRow st x = .ok st') :
    ∀ rb ∈ st', Sol.itemHasKey nid c rb.1 = false := by
  unfold Sol.pgInsertRow at hok
  split at hok
  · split at hok
    · exact absurd hok (fun h => Except.noConfusion h)
    · rw [Except.ok.injEq] at hok
      subst hok
      intro rb' hmem'
      obtain ⟨rb, hmem, rfl⟩ := List.mem_map.mp hmem'
      by_cases hc : Sol.itemConflict rb.1 x = true
      · show Sol.itemHasKey nid c
          (if Sol.itemConflict rb.1 x = true
            then (Sol.itemMerge rb.1 x, true) else rb).1 = false
        rw [if_pos hc]
        show Sol.itemHasKey nid c (Sol.itemMerge rb.1 x) = false
        rw [itemHasKey_merge]
        exact hst rb hmem
      · show Sol.itemHasKey nid c
          (if Sol.itemConflict rb.1 x = true
            then (Sol.itemMerge rb.1 x, true) else rb).1 = false
        rw [if_neg hc]
        exact hst rb hmem
  · rw [Except.ok.injEq] at hok
    subst hok
    intro rb hmem
    rcases List.mem_append.mp hmem with h | h
    · exact hst rb h
    · rw [List.mem_singleton.mp h]
      exact hk

/-- Once the statement state holds a key-(`nid`, `c`) row that this command
already affected, any further proposed row with that key makes the whole
remaining command fail with the cardinality violation. -/
theorem pgFold_err_of_affected (nid : Int) (c : String) :
    ∀ (rows : List Sol.NfeItem) (st : List (Sol.NfeItem × Bool)),
      (∃ rb ∈ st, Sol.itemHasKey nid c rb.1 = true ∧ rb.2 = true) →
      1 ≤ (rows.filter (Sol.itemHasKey nid c)).length →
      Sol.pgInsertRows st rows = .error .cardinalityViolation := by
  intro rows
  induction rows with
  | nil => intro st _ hlen; simp at hlen
  | cons x rs ih =>
    intro st hw hlen
    unfold Sol.pgInsertRows
    by_cases hk : Sol.itemHasKey nid c x = true
    · obtain ⟨rb, hmem, hkey, haff⟩ := hw
      have hc : Sol.itemConflict rb.1 x = true := by
        rw [itemConflict_eq_key hk]
        exact hkey
      have hstep : Sol.pgInsertRow st x = .error .cardinalityViolation := by
        unfold Sol.pgInsertRow
        rw [if_pos (List.any_eq_true.mpr ⟨rb, hmem, hc⟩),
          if_pos (List.any_eq_true.mpr ⟨rb, hmem, by simp [hc, haff]⟩)]
      rw [hstep]
    · rw [List.filter_cons, if_neg hk] at hlen
      rcases hins : Sol.pgInsertRow st x with e | st'
      · cases e
        rfl
      · show Sol.pgInsertRows st' rs = _
        exact ih st' (pgInsertRow_preserves_witness nid c hw hins) hlen

/-- A batch holding two or more rows with the same key (`nid`, `c`),
inserted into a state with no key-(`nid`, `c`) row, fails with the
cardinality violation: the first such row is inserted and flagged, the
second then conflicts with a row this same command affected. -/
theorem pgFold_err_of_dup (nid : Int) (c : String) :
    ∀ (rows : List Sol.NfeItem) (st : List (Sol.NfeItem × Bool)),
      (∀ rb ∈ st, Sol.itemHasKey nid c rb.1 = false) →
      2 ≤ (rows.filter (Sol.itemHasKey nid c)).length →
      Sol.pgInsertRows st rows = .error .cardinalityViolation := by
  intro rows
  induction rows with
  | nil => intro st _ hlen; simp at hlen
  | cons x rs ih =>
    intro st hst hlen
    unfold Sol.pgInsertRows
    by_cases hk : Sol.itemHasKey nid c x = true
    · have hnoc : st.any (fun rb => Sol.itemConflict rb.1 x) = false := by
        rw [List.any_eq_false]
        intro rb hmem
        rw [itemConflict_eq_key hk]
        simp [hst rb hmem]
      have hstep : Sol.pgInsertRow st x = .ok (st ++ [(x, true)]) := by
        unfold Sol.pgInsertRow
        rw [hnoc]
        rfl
      rw [hstep]
      show Sol.pgInsertRows (st ++ [(x, true)]) rs = _
      apply pgFold_err_of_affected nid c rs (st ++ [(x, true)])
      · exact ⟨(x, true),
          List.mem_append_right _ (List.mem_singleton_self _), hk, rfl⟩
      · rw [List.filter_cons, if_pos hk, List.length_cons] at hlen
        omega
    · rw [List.filter_cons, if_neg hk] at hlen
      rcases hins : Sol.pgInsertRow st x with e | st'
      · cases e
        rfl
      · show Sol.pgInsertRows st' rs = _
        have hk' : Sol.itemHasKey nid c x = false := by simpa using hk
        exact ih st' (pgInsertRow_preserves_no_key nid c hst hk' hins) hlen

/-- **C2.** The claim is refuted by the code: `upsert_nfe_itens` issues the
delete and then ONE multi-row `INSERT .. ON CONFLICT (uq_nfe_item)
DO UPDATE`.  Because the delete removes every row of the invoice first, the
only conflicts that can arise are between two rows of the same batch — and
PostgreSQL aborts such a command with the cardinality violation
`ON CONFLICT DO UPDATE command cannot affect row a second time` instead of
applying the accumulating `SET` clause (which is therefore unreachable).
So for every batch holding two or more entries with the same product code,
the operation does not succeed and no accumulated row is stored: the spec's
accumulation behaviour is the evident intent, and the code a slip. -/
theorem C2_upsert_nfe_itens_duplicado_erra (table : List Sol.NfeItem)
    (nid : Int) (itens : List Sol.NfeItem) (c : String)
    (hdup : 2 ≤ (itens.filter
      (fun it => it.codigo_produto == some c)).length) :
    Sol.upsert_nfe_itens table nid itens = .error .cardinalityViolation := by
  have hne : ¬ itens.isEmpty = true := by
    intro h
    rw [List.isEmpty_iff] at h
    rw [h] at hdup
    simp at hdup
  unfold Sol.upsert_nfe_itens
  rw [if_neg hne]
  unfold Sol.pgMultiInsert
  have hbase : ∀ rb ∈ (table.filter
      (fun row => row.nfe_id != nid)).map (fun r => (r, false)),
      Sol.itemHasKey nid c rb.1 = false := by
    intro rb hmem
    obtain ⟨r, hr, rfl⟩ := List.mem_map.mp hmem
    have h1 : (r.nfe_id != nid) = true := (List.mem_filter.mp hr).2
    rw [bne_iff_ne] at h1
    unfold Sol.itemHasKey
    rw [beq_eq_false_iff_ne.mpr h1]
    rfl
  have hlen : 2 ≤ ((itens.map
      (fun it => { it with nfe_id := nid })).filter
      (Sol.itemHasKey nid c)).length := by
    rw [mapped_filter_key nid c itens, List.length_map]
    exact hdup
  rw [pgFold_err_of_dup nid c _ _ hbase hlen]

/-- Witness for C2's failing input: the same product code "P" twice in one
batch aborts the statement; nothing is accumulated. -/
theorem C2_upsert_nfe_itens_duplicado_erra_witness :
    Sol.upsert_nfe_itens ([] : List Sol.NfeItem) 1
        [⟨0, some "P", none, 2, 1, 10, 1, none⟩,
          ⟨0, some "P", none, 3, 1, 20, 2, none⟩] =
      .error .cardinalityViolation :=
  C2_upsert_nfe_itens_duplicado_erra [] 1
    [⟨0, some "P", none, 2, 1, 10, 1, none⟩,
      ⟨0, some "P", none, 3, 1, 20, 2, none⟩] "P" (by decide)

/-- A batch whose rows conflict neither with the existing state nor with
each other is appended wholesale (every row flagged). -/
theorem pgInsertRows_append :
    ∀ (rows : List Sol.NfeItem) (st : List (Sol.NfeItem × Bool)),
      (∀ rb ∈ st, ∀ x ∈ rows, Sol.itemConflict rb.1 x = false) →
      rows.Pairwise (fun a b => Sol.itemConflict a b = false) →
      Sol.pgInsertRows st rows = .ok (st ++ rows.map (fun x => (x, true))) := by
  intro rows
  induction rows with
  | nil => intro st _ _; simp [Sol.pgInsertRows]
  | cons x rs ih =>
    intro st hst hpw
    rw [List.pairwise_cons] at hpw
    have hnoc : st.any (fun rb => Sol.itemConflict rb.1 x) = false := by
      rw [List.any_eq_false]
      intro rb hmem
      simp [hst rb hmem x (List.mem_cons_self _ _)]
    have hstep : Sol.pgInsertRow st x = .ok (st ++ [(x, true)]) := by
      unfold Sol.pgInsertRow
      rw [hnoc]
      rfl
    have hst' : ∀ rb ∈ st ++ [(x, true)], ∀ y ∈ rs,
        Sol.itemConflict rb.1 y = false := by
      intro rb hmem y hy
      rcases List.mem_append.mp hmem with h | h
      · exact hst rb h y (List.mem_cons_of_mem _ hy)
      · rw [List.mem_singleton.mp h]
        exact hpw.1 y hy
    unfold Sol.pgInsertRows
    rw [hstep]
    show Sol.pgInsertRows (st ++ [(x, true)]) rs = _
    rw [ih (st ++ [(x, true)]) hst' hpw.2, List.append_assoc]
    rfl

/-- Tagging each element and projecting it back is the identity. -/
theorem map_fst_tag {α : Type} (l : List α) (b : Bool) :
    ((l.map (fun x => (x, b))).map Prod.fst) = l := by
  induction l with
  | nil => rfl
  | cons a l ih => simp [ih]

/-- For a non-empty batch without intra-batch conflicts, `upsert_nfe_itens`
succeeds: the invoice's old rows are deleted and the stamped batch stored. -/
theorem upsert_nfe_itens_ok (table : List Sol.NfeItem) (nid : Int)
    (itens : List Sol.NfeItem)
    (hnodup : (itens.map (fun it => { it with nfe_id := nid })).Pairwise
      (fun a b => Sol.itemConflict a b = false))
    (hne : itens ≠ []) :
    Sol.upsert_nfe_itens table nid itens =
      .ok (table.filter (fun row => row.nfe_id != nid) ++
        itens.map (fun it => { it with nfe_id := nid })) := by
  unfold Sol.upsert_nfe_itens
  rw [if_neg (by rw [List.isEmpty_iff]; exact hne)]
  unfold Sol.pgMultiInsert
  have hbase : ∀ rb ∈ (table.filter
      (fun row => row.nfe_id != nid)).map (fun r => (r, false)),
      ∀ x ∈ itens.map (fun it => { it with nfe_id := nid } :
        Sol.NfeItem → Sol.NfeItem), Sol.itemConflict rb.1 x = false := by
    intro rb hmem x hx
    obtain ⟨r, hr, rfl⟩ := List.mem_map.mp hmem
    obtain ⟨it, _, rfl⟩ := List.mem_map.mp hx
    have h1 : (r.nfe_id != nid) = true := (List.mem_filter.mp hr).2
    rw [bne_iff_ne] at h1
    exact itemConflict_of_ne_nfe h1
  rw [pgInsertRows_append _ _ hbase hnodup]
  show Except.ok
      ((((table.filter (fun row : Sol.NfeItem => row.nfe_id != nid)).map
          (fun r => (r, false))) ++
        ((itens.map (fun it : Sol.NfeItem =>
            ({ it with nfe_id := nid } : Sol.NfeItem))).map
          (fun x => (x, true)))).map Prod.fst) = _
  rw [List.map_append, map_fst_tag, map_fst_tag]

/-- Counterexample to C3 as stated: a payload with the same line item twice
makes the very first save fail with the cardinality violation, so the
re-extraction never produces a stored state at all, let alone an equal one
on the second run. -/
theorem C3_salvar_nfe_duplicado_nao_idempotente :
    Sol.upsert_nfe_itens ([] : List Sol.NfeItem) 1
        [⟨0, some "P", none, 2, 1, 10, 1, none⟩,
          ⟨0, some "P", none, 2, 1, 10, 1, none⟩] =
      .error .cardinalityViolation ∧
    ¬ ∃ t, Sol.upsert_nfe_itens ([] : List Sol.NfeItem) 1
        [⟨0, some "P", none, 2, 1, 10, 1, none⟩,
          ⟨0, some "P", none, 2, 1, 10, 1, none⟩] = .ok t := by
  have h : Sol.upsert_nfe_itens ([] : List Sol.NfeItem) 1
      [⟨0, some "P", none, 2, 1, 10, 1, none⟩,
        ⟨0, some "P", none, 2, 1, 10, 1, none⟩] =
      .error .cardinalityViolation := by rfl
  refine ⟨h, ?_⟩
  rintro ⟨t, ht⟩
  rw [h] at ht
  exact Except.noConfusion ht

/-- **C3 (amended).** For payloads whose line items hold no two entries
with the same non-null product code — the only payloads the single-statement
upsert can process — saving the invoice twice in succession with the
identical payload is idempotent: the first run succeeds, the second run
succeeds with exactly the same stored line items, and the payment
delete-then-reinsert is idempotent unconditionally. -/
theorem C3_salvar_nfe_idempotente_sem_duplicatas
    (itTable : List Sol.NfeItem) (pagTable : List Sol.NfePagamento)
    (nid : Int) (itens : List Sol.NfeItem)
    (pagamentos : List Sol.NfePagamento)
    (hnodup : (itens.map (fun it => { it with nfe_id := nid })).Pairwise
      (fun a b => Sol.itemConflict a b = false)) :
    ∃ itens1,
      Sol.upsert_nfe_itens itTable nid itens = .ok itens1 ∧
      Sol.upsert_nfe_itens itens1 nid itens = .ok itens1 ∧
      Sol.upsert_nfe_pagamentos
          (Sol.upsert_nfe_pagamentos pagTable nid pagamentos) nid
          pagamentos =
        Sol.upsert_nfe_pagamentos pagTable nid pagamentos := by
  have hmapped : ((pagamentos.map
      (fun p => { p with nfe_id := nid } :
        Sol.NfePagamento → Sol.NfePagamento)).filter
      (fun r => r.nfe_id != nid)) = [] := by
    rw [List.filter_eq_nil_iff]
    intro a ha
    obtain ⟨p, _, rfl⟩ := List.mem_map.mp ha
    simp
  have hpag : Sol.upsert_nfe_pagamentos
      (Sol.upsert_nfe_pagamentos pagTable nid pagamentos) nid pagamentos
      = Sol.upsert_nfe_pagamentos pagTable nid pagamentos := by
    unfold Sol.upsert_nfe_pagamentos
    rw [List.filter_append, hmapped, List.filter_filter, List.append_nil]
    congr 1
    exact List.filter_congr (fun a _ => Bool.and_self _)
  by_cases hne : itens = []
  · subst hne
    refine ⟨itTable.filter (fun row => row.nfe_id != nid), rfl, ?_, hpag⟩
    unfold Sol.upsert_nfe_itens
    rw [if_pos (show ([] : List Sol.NfeItem).isEmpty = true from rfl),
      List.filter_filter]
    exact congrArg Except.ok
      (List.filter_congr (fun a _ => Bool.and_self _))
  · have h1 := upsert_nfe_itens_ok itTable nid itens hnodup hne
    refine ⟨itTable.filter (fun row => row.nfe_id != nid) ++
      itens.map (fun it => { it with nfe_id := nid }), h1, ?_, hpag⟩
    have h2 := upsert_nfe_itens_ok
      (itTable.filter (fun row => row.nfe_id != nid) ++
        itens.map (fun it => { it with nfe_id := nid }))
      nid itens hnodup hne
    rw [h2]
    have hstamped : ((itens.map (fun it => { it with nfe_id := nid } :
        Sol.NfeItem → Sol.NfeItem)).filter
        (fun row => row.nfe_id != nid)) = [] := by
      rw [List.filter_eq_nil_iff]
      intro a ha
      obtain ⟨it, _, rfl⟩ := List.mem_map.mp ha
      simp
    rw [List.filter_append, hstamped, List.append_nil, List.filter_filter]
    congr 2
    exact List.filter_congr (fun a _ => Bool.and_self _)

/-- Witness for the amended C3: a duplicate-free two-item payload with one
payment, saved twice, ends in the same state as after the first save. -/
theorem C3_salvar_nfe_idempotente_sem_duplicatas_witness :
    ∃ itens1,
      Sol.upsert_nfe_itens ([] : List Sol.NfeItem) 1
          [⟨0, some "P", none, 2, 1, 10, 1, none⟩,
            ⟨0, some "Q", none, 3, 1, 20, 2, none⟩] = .ok itens1 ∧
      Sol.upsert_nfe_itens itens1 1
          [⟨0, some "P", none, 2, 1, 10, 1, none⟩,
            ⟨0, some "Q", none, 3, 1, 20, 2, none⟩] = .ok itens1 ∧
      Sol.upsert_nfe_pagamentos
          (Sol.upsert_nfe_pagamentos ([] : List Sol.NfePagamento) 1
            [⟨0, some 1, 30⟩]) 1 [⟨0, some 1, 30⟩] =
        Sol.upsert_nfe_pagamentos ([] : List Sol.NfePagamento) 1
          [⟨0, some 1, 30⟩] :=
  C3_salvar_nfe_idempotente_sem_duplicatas [] [] 1
    [⟨0, some "P", none, 2, 1, 10, 1, none⟩,
      ⟨0, some "Q", none, 3, 1, 20, 2, none⟩]
    [⟨0, some 1, 30⟩] (by decide)

/-- **C7.** Window determination of `Pipeline.run` without an explicit start
date: (i) the start is the reference date of the run selected by
`get_last_successful_run`, which is a successful run from the history whose
reference date is maximal among all successful runs — runs whose status is
`error` or `running` are ignored; (ii) when no successful run exists the
start falls back to `now - lookback` (lookback default
`EXTRACTION_DAYS_BACK_default = 1`); (iii) prepending a non-successful run
to the history changes nothing; (iv) the window end defaults to `now` when
no explicit end date is given, and is the given date otherwise. -/
theorem C7_janela_usa_ultima_execucao_com_sucesso
    (runs : List Sol.EtlRun) (now lookback : Nat) (dfim : Option Nat) :
    ((runs.filter (fun r => r.status == "success")) = [] →
      Sol.determine_window runs now lookback none dfim =
        (now - lookback, dfim.getD now)) ∧
    (∀ r, Sol.get_last_successful_run runs = some r →
      r.status = "success" ∧ r ∈ runs ∧
      (∀ q ∈ runs, q.status = "success" →
        q.data_referencia ≤ r.data_referencia) ∧
      Sol.determine_window runs now lookback none dfim =
        (r.data_referencia, dfim.getD now)) ∧
    (∀ r0 : Sol.EtlRun, r0.status ≠ "success" →
      Sol.determine_window (r0 :: runs) now lookback none dfim =
        Sol.determine_window runs now lookback none dfim) ∧
    ((Sol.determine_window runs now lookback none none).2 = now ∧
      ∀ e, (Sol.determine_window runs now lookback none (some e)).2 = e) := by
  refine ⟨?_, ?_, ?_, rfl, fun e => rfl⟩
  · intro h
    unfold Sol.determine_window Sol.get_last_successful_run
    rw [h]
    rfl
  · intro r hr
    have hmem : r ∈ runs.filter (fun q => q.status == "success") :=
      List.argmax_mem hr
    have hms := List.mem_filter.mp hmem
    refine ⟨by simpa using hms.2, hms.1, ?_, ?_⟩
    · intro q hq hqs
      exact List.le_of_mem_argmax
        (List.mem_filter.mpr ⟨hq, by simp [hqs]⟩) hr
    · unfold Sol.determine_window
      rw [hr]
  · intro r0 h0
    unfold Sol.determine_window Sol.get_last_successful_run
    rw [List.filter_cons, if_neg (by simpa using h0)]

/-- Witness for C7: a history holding an `error` run, a `running` run and
two `success` runs; the later success (reference date 40) wins, and the
`error` run is ignored. -/
theorem C7_janela_usa_ultima_execucao_com_sucesso_witness :
    (Sol.get_last_successful_run
        [⟨"error", 50⟩, ⟨"success", 40⟩, ⟨"running", 60⟩, ⟨"success", 30⟩] =
      some ⟨"success", 40⟩) ∧
    Sol.determine_window
        [⟨"error", 50⟩, ⟨"success", 40⟩, ⟨"running", 60⟩, ⟨"success", 30⟩]
        100 1 none none = (40, 100) ∧
    Sol.determine_window ([] : List Sol.EtlRun) 100 1 none none = (99, 100) := by
  have h : Sol.get_last_successful_run
      [⟨"error", 50⟩, ⟨"success", 40⟩, ⟨"running", 60⟩, ⟨"success", 30⟩] =
      some ⟨"success", 40⟩ := by decide
  refine ⟨h, ?_, ?_⟩
  · exact ((C7_janela_usa_ultima_execucao_com_sucesso _ 100 1 none).2.1
      ⟨"success", 40⟩ h).2.2.2
  · exact (C7_janela_usa_ultima_execucao_com_sucesso [] 100 1 none).1 rfl

/-- Every Gregorian month has between 28 and 31 days. -/
theorem daysInMonth_bounds (y m : Nat) :
    28 ≤ Sol.daysInMonth y m ∧ Sol.daysInMonth y m ≤ 31 := by
  unfold Sol.daysInMonth
  split
  · split <;> norm_num
  · split <;> norm_num

/-- Once the cursor has passed `fim`, the loop yields nothing. -/
theorem gerarLoop_stop (fim : Sol.Date) (fuel : Nat) (cursor : Sol.Date)
    (h : fim.toN < cursor.toN) : Sol.gerarLoop fim fuel cursor = [] := by
  cases fuel with
  | zero => rfl
  | succ n =>
    unfold Sol.gerarLoop
    rw [if_neg (by omega)]

/-- Adding one day strictly advances the order key, for any date with
in-range day and month fields. -/
theorem toN_lt_nextDay (d : Sol.Date) (h31 : d.day ≤ 31)
    (hm : d.month ≤ 12) : d.toN < (Sol.nextDay d).toN := by
  unfold Sol.nextDay
  split
  · unfold Sol.Date.toN
    dsimp only
    omega
  · split <;> (unfold Sol.Date.toN; dsimp only; omega)

/-- Adding one day preserves validity whenever the month is in range. -/
theorem nextDay_valid (d : Sol.Date) (hm1 : 1 ≤ d.month)
    (hm : d.month ≤ 12) : (Sol.nextDay d).Valid := by
  unfold Sol.nextDay
  split
  next h =>
    show 1 ≤ d.month ∧ d.month ≤ 12 ∧ 1 ≤ d.day + 1 ∧
      d.day + 1 ≤ Sol.daysInMonth d.year d.month
    exact ⟨hm1, hm, by omega, by omega⟩
  next h =>
    split
    next h12 =>
      obtain ⟨hb1, hb2⟩ := daysInMonth_bounds d.year (d.month + 1)
      show 1 ≤ d.month + 1 ∧ d.month + 1 ≤ 12 ∧ 1 ≤ 1 ∧
        1 ≤ Sol.daysInMonth d.year (d.month + 1)
      exact ⟨by omega, by omega, le_refl 1, by omega⟩
    next h12 =>
      obtain ⟨hb1, hb2⟩ := daysInMonth_bounds (d.year + 1) 1
      show 1 ≤ 1 ∧ (1 : Nat) ≤ 12 ∧ 1 ≤ 1 ∧
        1 ≤ Sol.daysInMonth (d.year + 1) 1
      exact ⟨le_refl 1, by omega, le_refl 1, by omega⟩

/-- The end of a valid date's month is valid and not before the date. -/
theorem endOfMonth_facts (d : Sol.Date) (hd : d.Valid) :
    (Sol.endOfMonth d).Valid ∧ d.toN ≤ (Sol.endOfMonth d).toN := by
  obtain ⟨h1, h2, h3, h4⟩ := hd
  obtain ⟨hb1, hb2⟩ := daysInMonth_bounds d.year d.month
  constructor
  · show 1 ≤ d.month ∧ d.month ≤ 12 ∧
      1 ≤ Sol.daysInMonth d.year d.month ∧
      Sol.daysInMonth d.year d.month ≤
        Sol.daysInMonth (Sol.endOfMonth d).year (Sol.endOfMonth d).month
    exact ⟨h1, h2, by omega, le_refl _⟩
  · unfold Sol.endOfMonth Sol.Date.toN
    dsimp only
    omega

/-- The order key is injective on valid dates. -/
theorem toN_inj_valid {a b : Sol.Date} (ha : a.Valid) (hb : b.Valid)
    (h : a.toN = b.toN) : a = b := by
  obtain ⟨a1, a2, a3, a4⟩ := ha
  obtain ⟨b1, b2, b3, b4⟩ := hb
  obtain ⟨ha1, ha2⟩ := daysInMonth_bounds a.year a.month
  obtain ⟨hb1', hb2'⟩ := daysInMonth_bounds b.year b.month
  unfold Sol.Date.toN at h
  cases a
  cases b
  simp only [Sol.Date.mk.injEq]
  simp only at *
  omega

/-- If `fim` lies on or after `cursor` but strictly before the end of
`cursor`'s month, then `fim` is in the same calendar month as `cursor`. -/
theorem same_month_of_before_eom {cursor fim : Sol.Date}
    (hc : cursor.Valid) (hf : fim.Valid)
    (h1 : cursor.toN ≤ fim.toN)
    (h2 : fim.toN < (Sol.endOfMonth cursor).toN) :
    fim.year = cursor.year ∧ fim.month = cursor.month := by
  obtain ⟨c1, c2, c3, c4⟩ := hc
  obtain ⟨f1, f2, f3, f4⟩ := hf
  obtain ⟨hcb1, hcb2⟩ := daysInMonth_bounds cursor.year cursor.month
  obtain ⟨hfb1, hfb2⟩ := daysInMonth_bounds fim.year fim.month
  unfold Sol.endOfMonth at h2
  unfold Sol.Date.toN at h1 h2
  dsimp only at h2
  constructor <;> omega

/-- When the end of `cursor`'s month lies strictly before `fim`, the first
day of the following month still lies on or before `fim`. -/
theorem nextDay_eom_le {cursor fim : Sol.Date}
    (hc : cursor.Valid) (hf : fim.Valid)
    (hlt : (Sol.endOfMonth cursor).toN < fim.toN) :
    (Sol.nextDay (Sol.endOfMonth cursor)).toN ≤ fim.toN := by
  obtain ⟨c1, c2, c3, c4⟩ := hc
  obtain ⟨f1, f2, f3, f4⟩ := hf
  obtain ⟨hcb1, hcb2⟩ := daysInMonth_bounds cursor.year cursor.month
  obtain ⟨hfb1, hfb2⟩ := daysInMonth_bounds fim.year fim.month
  by_cases hsame : fim.year = cursor.year ∧ fim.month = cursor.month
  · exfalso
    unfold Sol.endOfMonth at hlt
    unfold Sol.Date.toN at hlt
    dsimp only at hlt
    rw [hsame.1, hsame.2] at f4
    omega
  · have hstep : Sol.nextDay (Sol.endOfMonth cursor) =
        if cursor.month < 12 then ⟨cursor.year, cursor.month + 1, 1⟩
        else ⟨cursor.year + 1, 1, 1⟩ := by
      unfold Sol.nextDay Sol.endOfMonth
      dsimp only
      rw [if_neg (by omega)]
    rw [hstep]
    unfold Sol.endOfMonth at hlt
    unfold Sol.Date.toN at hlt
    dsimp only at hlt
    split
    · unfold Sol.Date.toN
      dsimp only
      omega
    · unfold Sol.Date.toN
      dsimp only
      omega

/-- Full specification of the month-splitting loop: started at a valid
`cursor ≤ fim` with sufficient fuel, it produces a nonempty list of
sub-periods whose first starts at `cursor`, whose last ends at `fim`, each
lying within a single calendar month with start ≤ end, and consecutive
sub-periods chained by next-day adjacency. -/
theorem gerarLoop_spec (fim : Sol.Date) (hf : fim.Valid) :
    ∀ (fuel : Nat) (cursor : Sol.Date), cursor.Valid →
      cursor.toN ≤ fim.toN → fim.toN + 1 - cursor.toN ≤ fuel →
      (∃ q rest, Sol.gerarLoop fim fuel cursor = (cursor, q) :: rest) ∧
      (∃ pre lastp, Sol.gerarLoop fim fuel cursor = pre ++ [lastp] ∧
        lastp.2 = fim) ∧
      (∀ p ∈ Sol.gerarLoop fim fuel cursor,
        p.1.toN ≤ p.2.toN ∧ p.1.year = p.2.year ∧ p.1.month = p.2.month) ∧
      List.Chain' (fun p q => q.1 = Sol.nextDay p.2)
        (Sol.gerarLoop fim fuel cursor) := by
  have hf31 : fim.day ≤ 31 :=
    le_trans hf.2.2.2 (daysInMonth_bounds fim.year fim.month).2
  intro fuel
  induction fuel with
  | zero => intro cursor _ hle hfuel; omega
  | succ n ih =>
    intro cursor hcv hle hfuel
    have heq : Sol.gerarLoop fim (n + 1) cursor =
        (cursor, if (Sol.endOfMonth cursor).toN ≤ fim.toN
            then Sol.endOfMonth cursor else fim) ::
          Sol.gerarLoop fim n (Sol.nextDay
            (if (Sol.endOfMonth cursor).toN ≤ fim.toN
              then Sol.endOfMonth cursor else fim)) := by
      conv_lhs => unfold Sol.gerarLoop
      rw [if_pos hle]
    obtain ⟨heom_v, heom_ge⟩ := endOfMonth_facts cursor hcv
    by_cases hcmp : (Sol.endOfMonth cursor).toN ≤ fim.toN
    · rw [if_pos hcmp] at heq
      by_cases heqN : (Sol.endOfMonth cursor).toN = fim.toN
      · have hfe : Sol.endOfMonth cursor = fim := toN_inj_valid heom_v hf heqN
        have htail : Sol.gerarLoop fim n
            (Sol.nextDay (Sol.endOfMonth cursor)) = [] := by
          apply gerarLoop_stop
          rw [hfe]
          exact toN_lt_nextDay fim hf31 hf.2.1
        rw [htail] at heq
        refine ⟨⟨_, _, heq⟩,
          ⟨[], (cursor, Sol.endOfMonth cursor), by rw [heq]; rfl, hfe⟩,
          ?_, by rw [heq]; exact List.chain'_singleton _⟩
        intro p hp
        rw [heq] at hp
        have hps := List.mem_singleton.mp hp
        subst hps
        exact ⟨heom_ge, rfl, rfl⟩
      · have hlt : (Sol.endOfMonth cursor).toN < fim.toN :=
          lt_of_le_of_ne hcmp heqN
        have h31 : (Sol.endOfMonth cursor).day ≤ 31 :=
          (daysInMonth_bounds cursor.year cursor.month).2
        have hm12 : (Sol.endOfMonth cursor).month ≤ 12 := hcv.2.1
        have hv' : (Sol.nextDay (Sol.endOfMonth cursor)).Valid :=
          nextDay_valid _ heom_v.1 heom_v.2.1
        have hle' : (Sol.nextDay (Sol.endOfMonth cursor)).toN ≤ fim.toN :=
          nextDay_eom_le hcv hf hlt
        have hinc : cursor.toN < (Sol.nextDay (Sol.endOfMonth cursor)).toN :=
          lt_of_le_of_lt heom_ge (toN_lt_nextDay _ h31 hm12)
        have hfuel' : fim.toN + 1 -
            (Sol.nextDay (Sol.endOfMonth cursor)).toN ≤ n := by omega
        obtain ⟨⟨q, rest, hA⟩, ⟨pre, lastp, hB, hBfim⟩, hC, hD⟩ :=
          ih (Sol.nextDay (Sol.endOfMonth cursor)) hv' hle' hfuel'
        refine ⟨⟨_, _, heq⟩,
          ⟨(cursor, Sol.endOfMonth cursor) :: pre, lastp,
            by rw [heq, hB]; rfl, hBfim⟩, ?_, ?_⟩
        · intro p hp
          rw [heq] at hp
          rcases List.mem_cons.mp hp with hps | hp'
          · subst hps
            exact ⟨heom_ge, rfl, rfl⟩
          · exact hC p hp'
        · rw [heq, hA]
          rw [hA] at hD
          exact List.chain'_cons.mpr ⟨rfl, hD⟩
    · rw [if_neg hcmp] at heq
      have hlt' : fim.toN < (Sol.endOfMonth cursor).toN := not_le.mp hcmp
      obtain ⟨hy, hmo⟩ := same_month_of_before_eom hcv hf hle hlt'
      have htail : Sol.gerarLoop fim n (Sol.nextDay fim) = [] := by
        apply gerarLoop_stop
        exact toN_lt_nextDay fim hf31 hf.2.1
      rw [htail] at heq
      refine ⟨⟨_, _, heq⟩, ⟨[], (cursor, fim), by rw [heq]; rfl, rfl⟩,
        ?_, by rw [heq]; exact List.chain'_singleton _⟩
      intro p hp
      rw [heq] at hp
      have hps := List.mem_singleton.mp hp
      subst hps
      exact ⟨hle, hy.symm, hmo.symm⟩

set_option maxRecDepth 10000 in
/-- **C8.** For valid ISO dates with `inicio ≤ fim`,
`_gerar_periodos_mensais` partitions the range into consecutive
calendar-month sub-periods whose union is exactly the input range: the list
is nonempty, its first sub-period starts at `inicio`, its last ends at
`fim`, every sub-period has start ≤ end with start and end in the same
calendar month, and each sub-period starts on the day after the previous
one ends (no gaps, no overlaps — handling year rollover and variable month
lengths).  In particular 2023-12-15..2024-01-10 yields exactly
[2023-12-15, 2023-12-31] and [2024-01-01, 2024-01-10]. -/
theorem C8_gerar_periodos_mensais_particiona (inicio fim : Sol.Date)
    (hi : inicio.Valid) (hf : fim.Valid) (hle : inicio.toN ≤ fim.toN) :
    ((∃ q rest, Sol.gerar_periodos_mensais inicio fim =
        (inicio, q) :: rest) ∧
      (∃ pre lastp, Sol.gerar_periodos_mensais inicio fim =
        pre ++ [lastp] ∧ lastp.2 = fim) ∧
      (∀ p ∈ Sol.gerar_periodos_mensais inicio fim,
        p.1.toN ≤ p.2.toN ∧ p.1.year = p.2.year ∧ p.1.month = p.2.month) ∧
      List.Chain' (fun p q => q.1 = Sol.nextDay p.2)
        (Sol.gerar_periodos_mensais inicio fim)) ∧
    Sol.gerar_periodos_mensais ⟨2023, 12, 15⟩ ⟨2024, 1, 10⟩ =
      [(⟨2023, 12, 15⟩, ⟨2023, 12, 31⟩), (⟨2024, 1, 1⟩, ⟨2024, 1, 10⟩)] := by
  refine ⟨?_, by decide⟩
  unfold Sol.gerar_periodos_mensais
  exact gerarLoop_spec fim hf _ inicio hi hle (le_refl _)

set_option maxRecDepth 10000 in
/-- Witness for C8 at the spec's example range 2023-12-15..2024-01-10. -/
theorem C8_gerar_periodos_mensais_particiona_witness :
    ((∃ q rest, Sol.gerar_periodos_mensais ⟨2023, 12, 15⟩ ⟨2024, 1, 10⟩ =
        ((⟨2023, 12, 15⟩ : Sol.Date), q) :: rest) ∧
      (∃ pre lastp, Sol.gerar_periodos_mensais ⟨2023, 12, 15⟩ ⟨2024, 1, 10⟩ =
        pre ++ [lastp] ∧ lastp.2 = (⟨2024, 1, 10⟩ : Sol.Date)) ∧
      (∀ p ∈ Sol.gerar_periodos_mensais ⟨2023, 12, 15⟩ ⟨2024, 1, 10⟩,
        p.1.toN ≤ p.2.toN ∧ p.1.year = p.2.year ∧ p.1.month = p.2.month) ∧
      List.Chain' (fun p q => q.1 = Sol.nextDay p.2)
        (Sol.gerar_periodos_mensais ⟨2023, 12, 15⟩ ⟨2024, 1, 10⟩)) ∧
    Sol.gerar_periodos_mensais ⟨2023, 12, 15⟩ ⟨2024, 1, 10⟩ =
      [(⟨2023, 12, 15⟩, ⟨2023, 12, 31⟩), (⟨2024, 1, 1⟩, ⟨2024, 1, 10⟩)] :=
  C8_gerar_periodos_mensais_particiona ⟨2023, 12, 15⟩ ⟨2024, 1, 10⟩
    (by decide) (by decide) (by decide)
